import Mathlib

/-!
# Verification of the time-series forecasting platform core

Shallow embedding, in Lean 4, of the AutoML orchestration and evaluation
engine of the forecasting platform: the feature-derivation pipelines
(`app/ml/feature_engineering.py` and
`app/services/feature_engineering/feature_service.py`), the metric
evaluator (`app/services/forecasting/base_model.py`), the walk-forward
backtester (`app/services/backtesting.py`), the AutoML coordinator
(`app/services/automl/automl_service.py`) and the LightGBM forecaster
adapter (`app/services/forecasting/lightgbm_model.py`).

Modelling conventions:
* A float column that may contain NaN is a `List (Option ℚ)`, with `none`
  standing for NaN; a NaN-free column is a `List ℚ`.
* Wherever the source stores a square root (`rmse`, rolling `std`,
  `np.std`) the embedding either carries the radicand (variance) — the
  root is irrational and the claims only depend on definedness and on
  which data enter the statistic — or abstracts the numeric primitive as
  a function parameter.
* External modelling libraries (LightGBM's regressor, `scipy.stats.norm`,
  `np.std`) are abstracted as function parameters: the spec places the
  internal mathematics of the algorithms outside the core.
-/

namespace Forecast

/-- Arithmetic mean of a list of rationals, as `np.mean` / pandas `.mean()`
(zero on the empty list, where numpy would give NaN; every use below is
guarded by a nonemptiness check exactly where the source is). -/
def mean (l : List ℚ) : ℚ := l.sum / l.length

/-- Sample variance (`ddof = 1`, the pandas `.std()` default), i.e. the
square of the rolling standard deviation; `none` when fewer than two
observations, where pandas yields NaN. -/
def varSample (l : List ℚ) : Option ℚ :=
  if 2 ≤ l.length then
    some ((l.map (fun x => (x - mean l) ^ 2)).sum / ((l.length : ℚ) - 1))
  else none

/-- The `W` consecutive values of `t` starting at index `lo`. -/
def window (t : List ℚ) (lo W : ℕ) : List ℚ := (t.drop lo).take W

/-! ## Feature derivation, `feature_service.py` variant

`TimeSeriesFeatureEngineer.create_rolling_features` computes
`df[target].rolling(window=W).stat()`: the window **ends at and includes**
the current row, and pandas defines the value as soon as `W` observations
ending at row `i` exist, i.e. from row `W - 1` on.  The target column is
taken NaN-free (`List ℚ`), as in the claims under verification. -/

/-- `rolling_mean_W` at row `i` from `create_rolling_features`:
mean of `t[i+1-W .. i]` (current point included). -/
def fs_rolling_mean (t : List ℚ) (W i : ℕ) : Option ℚ :=
  if 1 ≤ W ∧ W ≤ i + 1 ∧ i < t.length then some (mean (window t (i + 1 - W) W))
  else none

/-- `rolling_std_W` at row `i` from `create_rolling_features`, carried as
the sample variance (the source stores its square root). -/
def fs_rolling_std (t : List ℚ) (W i : ℕ) : Option ℚ :=
  if 1 ≤ W ∧ W ≤ i + 1 ∧ i < t.length then varSample (window t (i + 1 - W) W)
  else none

/-- `rolling_min_W` at row `i` from `create_rolling_features`. -/
def fs_rolling_min (t : List ℚ) (W i : ℕ) : Option ℚ :=
  if 1 ≤ W ∧ W ≤ i + 1 ∧ i < t.length then (window t (i + 1 - W) W).min?
  else none

/-- `rolling_max_W` at row `i` from `create_rolling_features`. -/
def fs_rolling_max (t : List ℚ) (W i : ℕ) : Option ℚ :=
  if 1 ≤ W ∧ W ≤ i + 1 ∧ i < t.length then (window t (i + 1 - W) W).max?
  else none

/-! ## Feature derivation, `ml/feature_engineering.py` variant

`TimeSeriesFeatureEngineer.create_features` computes
`df[target].shift(1).rolling(window=W).stat()`: the window ends at row
`i - 1` (current point excluded), defined from row `W` on. -/

/-- `rolling_mean_W` at row `i` from `create_features`
(`shift(1).rolling(W).mean()`): mean of `t[i-W .. i-1]`. -/
def ml_rolling_mean (t : List ℚ) (W i : ℕ) : Option ℚ :=
  if 1 ≤ W ∧ W ≤ i ∧ i < t.length then some (mean (window t (i - W) W))
  else none

/-- `rolling_std_W` at row `i` from `create_features`, carried as the
sample variance (the source stores its square root). -/
def ml_rolling_std (t : List ℚ) (W i : ℕ) : Option ℚ :=
  if 1 ≤ W ∧ W ≤ i ∧ i < t.length then varSample (window t (i - W) W)
  else none

/-- `lag_L` at row `i` (`df[target].shift(L)`): `t[i - L]`, undefined for
`i < L`. -/
def lag_feature (t : List ℚ) (L i : ℕ) : Option ℚ :=
  if L ≤ i ∧ i < t.length then some (t.getD (i - L) 0) else none

/-! ### Full derivation pipelines

`create_features` (ml variant) uses the fixed lag list `[1,2,3,7,14,21,28]`
and window list `[7,14,28]`, each entry kept only when it is `< len(df)`,
derives five calendar columns from the date column, and then drops every
row in which a selected feature or the target is NaN; `X` and `y` are read
off the same cleaned frame.  `create_all_features` (feature_service
variant) adds its lag/rolling/calendar/trend columns to the frame and
returns it without dropping any row. -/

/-- A decoded timestamp: the fields that the pandas `dt` accessors project
out of the date column (the calendar decoding itself belongs to pandas). -/
structure Date where
  dayOfWeek : ℤ
  dayOfMonth : ℤ
  month : ℤ
  weekOfYear : ℤ
deriving Repr, DecidableEq, Inhabited

/-- The five calendar columns of `create_features` (`day_of_week`,
`day_of_month`, `month`, `week_of_year`, `is_weekend`): total functions of
the timestamp, hence never NaN. -/
def date_features (d : Date) : List (Option ℚ) :=
  [some (d.dayOfWeek : ℚ), some (d.dayOfMonth : ℚ), some (d.month : ℚ),
   some (d.weekOfYear : ℚ), some (if 5 ≤ d.dayOfWeek then (1 : ℚ) else 0)]

/-- The lag periods `create_features` actually uses: `lag < len(df)`. -/
def ml_lags (n : ℕ) : List ℕ := [1, 2, 3, 7, 14, 21, 28].filter (· < n)

/-- The rolling windows `create_features` actually uses: `window < len(df)`. -/
def ml_windows (n : ℕ) : List ℕ := [7, 14, 28].filter (· < n)

/-- Row `i` of the feature columns built by `create_features`: lag
features, then rolling mean/std per window, then calendar features. -/
def ml_feature_row (t : List ℚ) (dates : List Date) (i : ℕ) : List (Option ℚ) :=
  (ml_lags t.length).map (fun L => lag_feature t L i) ++
  (ml_windows t.length).flatMap (fun W => [ml_rolling_mean t W i, ml_rolling_std t W i]) ++
  date_features (dates.getD i default)

/-- Indices of the rows surviving
`df.dropna(subset=features + [target_column])`.  The target column is
NaN-free here (`List ℚ`), so a row is kept exactly when every selected
feature is defined. -/
def ml_kept (t : List ℚ) (dates : List Date) : List ℕ :=
  (List.range t.length).filter (fun i => (ml_feature_row t dates i).all Option.isSome)

/-- `create_features`: the feature matrix `X` and target vector `y` read
off the cleaned frame (`df_clean[features].values`,
`df_clean[target_column].values`).  On kept rows every entry is defined,
so reading an entry defaults harmlessly. -/
def ml_create_features (t : List ℚ) (dates : List Date) :
    List (List ℚ) × List ℚ :=
  ((ml_kept t dates).map fun i => (ml_feature_row t dates i).map (fun v => v.getD 0),
   (ml_kept t dates).map fun i => t.getD i 0)

/-- The exact leakage boundary of `create_features`:
`max(maxLag, maxWindow)` over the lag periods and rolling windows it uses
on a series of length `n`. -/
def mlMaxIndex (n : ℕ) : ℕ :=
  max ((ml_lags n).foldr max 0) ((ml_windows n).foldr max 0)

/-- Row `i` of the lag and rolling columns that
`create_all_features` adds (calendar and trend columns are total
functions of the timestamp — never NaN — and are omitted from the row
representation; they cannot affect definedness). -/
def fs_feature_row (t : List ℚ) (lags windows : List ℕ) (i : ℕ) : List (Option ℚ) :=
  lags.map (fun L => lag_feature t L i) ++
  windows.flatMap (fun W =>
    [fs_rolling_mean t W i, fs_rolling_std t W i, fs_rolling_min t W i, fs_rolling_max t W i])

/-- `create_all_features`: adds the feature columns to the frame and
returns it — one output row per input row, **no dropping**.  Each output
row pairs the (NaN-free) target value with its feature entries. -/
def fs_create_all_features (t : List ℚ) (lags windows : List ℕ) :
    List (ℚ × List (Option ℚ)) :=
  (List.range t.length).map (fun i => (t.getD i 0, fs_feature_row t lags windows i))

/-! ## Metric Evaluator (`BaseForecaster.evaluate`) -/

/-- The metric set returned by `BaseForecaster.evaluate`; `none` is NaN.
`mse` carries the square of the reported `rmse` (the source stores
`sqrt(mean_squared_error)`, an irrational quantity). -/
structure MetricSet where
  mape : Option ℚ
  mse : Option ℚ
  mae : Option ℚ
  r2 : Option ℚ
deriving Repr, DecidableEq

/-- `mask = ~(np.isnan(y_true) | np.isnan(y_pred))` followed by selection:
the (actual, predicted) pairs in which both values are defined. -/
def cleanPairs (y_true y_pred : List (Option ℚ)) : List (ℚ × ℚ) :=
  (y_true.zip y_pred).filterMap fun p =>
    match p with
    | (some a, some b) => some (a, b)
    | _ => none

/-- The nonzero-actual pairs MAPE averages over
(`non_zero_mask = y_true_clean != 0`). -/
def nonzeroPairs (clean : List (ℚ × ℚ)) : List (ℚ × ℚ) :=
  clean.filter fun p => p.1 ≠ 0

/-- The MAPE value of the evaluator on an already-cleaned pair list. -/
def mapeOf (clean : List (ℚ × ℚ)) : Option ℚ :=
  if (nonzeroPairs clean).length ≠ 0
  then some (100 * mean ((nonzeroPairs clean).map fun p => |(p.1 - p.2) / p.1|))
  else none

/-- The R² value of the evaluator on an already-cleaned pair list (left
undefined when the total sum of squares vanishes — a degenerate branch no
claim touches). -/
def r2Of (clean : List (ℚ × ℚ)) : Option ℚ :=
  if (clean.map fun p => (p.1 - mean (clean.map Prod.fst)) ^ 2).sum ≠ 0
  then some (1 - (clean.map fun p => (p.1 - p.2) ^ 2).sum /
    (clean.map fun p => (p.1 - mean (clean.map Prod.fst)) ^ 2).sum)
  else none

/-- `BaseForecaster.evaluate`: drop NaN pairs; MAPE over the retained
pairs with nonzero actual (NaN when there are none); MSE/MAE over all
retained pairs; R² by the coefficient of determination; every metric NaN
when no pair remains. -/
def evaluate (y_true y_pred : List (Option ℚ)) : MetricSet :=
  if (cleanPairs y_true y_pred).length = 0 then ⟨none, none, none, none⟩
  else
    { mape := mapeOf (cleanPairs y_true y_pred)
      mse := some (mean ((cleanPairs y_true y_pred).map fun p => (p.1 - p.2) ^ 2))
      mae := some (mean ((cleanPairs y_true y_pred).map fun p => |p.1 - p.2|))
      r2 := r2Of (cleanPairs y_true y_pred) }

/-! ## Walk-Forward Backtester (`backtesting.py`)

The backtester is generic in the model class; the embedding abstracts the
fitted model as a pure function.  A fresh model instance per fold means
each fold's predictions are a function of that fold's train/test slices
alone. -/

/-- `model_class(**params).fit(X_train, y_train).predict(X_test)` as one
pure function: (train features, train target, test features) ↦
predictions. -/
def Predictor : Type := List (List ℚ) → List ℚ → List (List ℚ) → List ℚ

/-- Python's `float(v) if v else None`: truthiness maps both `None` and
`0.0` to `None`. -/
def pyTruthyFloat (v : Option ℚ) : Option ℚ :=
  match v with
  | some x => if x ≠ 0 then some x else none
  | none => none

/-- The raw MAPE of `_calculate_metrics`
(`np.mean(np.abs((y_true[mask] - y_pred[mask]) / y_true[mask])) * 100`
over `mask = y_true != 0`, `None` when the mask is empty). -/
def bt_mape0 (y_true y_pred : List ℚ) : Option ℚ :=
  if (((y_true.zip y_pred).filter fun p => p.1 ≠ 0)).length ≠ 0
  then some (100 * mean (((y_true.zip y_pred).filter fun p => p.1 ≠ 0).map
    fun p => |(p.1 - p.2) / p.1|))
  else none

/-- Per-fold metrics of `WalkForwardBacktester._calculate_metrics`; `mse`
carries the square of the reported `rmse`. -/
structure FoldMetrics where
  mae : ℚ
  mse : ℚ
  mape : Option ℚ
deriving Repr, DecidableEq

/-- `_calculate_metrics`: MAE, (squared) RMSE, and MAPE run through the
source's `float(mape) if mape else None`. -/
def bt_calculate_metrics (y_true y_pred : List ℚ) : FoldMetrics :=
  { mae := mean ((y_true.zip y_pred).map fun p => |p.1 - p.2|)
    mse := mean ((y_true.zip y_pred).map fun p => (p.1 - p.2) ^ 2)
    mape := pyTruthyFloat (bt_mape0 y_true y_pred) }

/-- One entry of `self.results`: fold number, boundary indices (rows
`[0, trainEnd)` train, `[testStart, testEnd)` test), the test actuals,
the fold's predictions and its metrics. -/
structure BacktestFold where
  fold : ℕ
  trainEnd : ℕ
  testStart : ℕ
  testEnd : ℕ
  testY : List ℚ
  preds : List ℚ
  metrics : FoldMetrics
deriving Repr, DecidableEq

/-- The fold built in one iteration of the `while` loop, for a fresh model
instance: every slice is taken from the fold's own boundaries. -/
def bt_fold_at (model : Predictor) (X : List (List ℚ)) (y : List ℚ)
    (test n fold trainEnd : ℕ) : BacktestFold :=
  { fold := fold + 1
    trainEnd := trainEnd
    testStart := trainEnd
    testEnd := min (trainEnd + test) n
    testY := (y.drop trainEnd).take (min (trainEnd + test) n - trainEnd)
    preds := model (X.take trainEnd) (y.take trainEnd)
      ((X.drop trainEnd).take (min (trainEnd + test) n - trainEnd))
    metrics := bt_calculate_metrics
      ((y.drop trainEnd).take (min (trainEnd + test) n - trainEnd))
      (model (X.take trainEnd) (y.take trainEnd)
        ((X.drop trainEnd).take (min (trainEnd + test) n - trainEnd))) }

/-- The `while train_end + test_size <= n_samples` loop.  (The `0 < step`
guard renders the recursion total in Lean; the Python loop would simply
not terminate for `step = 0`, a case outside every claim.) -/
def bt_loop (model : Predictor) (X : List (List ℚ)) (y : List ℚ)
    (test step n fold trainEnd : ℕ) : List BacktestFold :=
  if _h : trainEnd + test ≤ n ∧ 0 < step then
    bt_fold_at model X y test n fold trainEnd ::
      bt_loop model X y test step n (fold + 1) (trainEnd + step)
  else []
termination_by n + 1 - trainEnd
decreasing_by omega

/-- The failure raised when `n_samples < initial_train_size + test_size`:
`ValueError(f"Not enough data. Need {required}, got {available}")`. -/
inductive BacktestError where
  | insufficientData (required available : ℕ)
deriving Repr, DecidableEq

/-- Population variance: the square of `np.std` (default `ddof = 0`). -/
def popVar (l : List ℚ) : ℚ := mean (l.map fun x => (x - mean l) ^ 2)

/-- `WalkForwardBacktester.backtest`'s return value; `mape_var` carries
the square of the reported `mape_std`. -/
structure BacktestReport where
  num_folds : ℕ
  fold_results : List BacktestFold
  overall : FoldMetrics
  mape_mean : Option ℚ
  mape_var : Option ℚ
deriving Repr, DecidableEq

/-- `WalkForwardBacktester.backtest`: precondition check, the fold loop,
pooled overall metrics, and the per-fold MAPE statistics over
`[r["metrics"]["mape"] for r in self.results if r["metrics"]["mape"]]`
(truthiness filter again). -/
def backtest (model : Predictor) (X : List (List ℚ)) (y : List ℚ)
    (initial test step : ℕ) : Except BacktestError BacktestReport :=
  if y.length < initial + test then
    .error (.insufficientData (initial + test) y.length)
  else
    let folds := bt_loop model X y test step y.length 0 initial
    let mapes := (folds.map fun f => f.metrics.mape).filterMap pyTruthyFloat
    .ok { num_folds := folds.length
          fold_results := folds
          overall := bt_calculate_metrics (folds.flatMap fun f => f.testY)
            (folds.flatMap fun f => f.preds)
          mape_mean := if mapes.length ≠ 0 then some (mean mapes) else none
          mape_var := if mapes.length ≠ 0 then some (popVar mapes) else none }

/-! ## AutoML Coordinator (`automl_service.py`) -/

/-- The registered algorithm families, in registry order
(`AVAILABLE_ALGORITHMS`). -/
def availableAlgorithms : List String := ["prophet", "xgboost", "lightgbm", "arima"]

/-- `algorithms = [a for a in algorithms if a in self.AVAILABLE_ALGORITHMS]`,
defaulting to the whole registry when none are requested. -/
def validate_algorithms (requested : Option (List String)) : List String :=
  match requested with
  | none => availableAlgorithms
  | some l => l.filter fun a => availableAlgorithms.contains a

/-- Trials per algorithm handed to `study.optimize`:
`self.max_trials // len(self.AVAILABLE_ALGORITHMS)` — the *registry* size,
not the invocation's candidate count. -/
def optimize_n_trials (max_trials : ℕ) : ℕ :=
  max_trials / availableAlgorithms.length

/-- Seconds per algorithm handed to `study.optimize`:
`self.timeout_seconds // len(self.AVAILABLE_ALGORITHMS)`. -/
def optimize_timeout (timeout_seconds : ℕ) : ℕ :=
  timeout_seconds / availableAlgorithms.length

/-- The (trials, seconds) budget each candidate of one `run` invocation
receives. -/
def run_allocations (requested : Option (List String))
    (max_trials timeout_seconds : ℕ) : List (String × ℕ × ℕ) :=
  (validate_algorithms requested).map fun a =>
    (a, optimize_n_trials max_trials, optimize_timeout timeout_seconds)

/-- The outcome of `_optimize_algorithm` for one candidate: a completed
search carrying its best validation score, or a raised exception (caught
by `run`). -/
inductive OptOutcome where
  | completed (score : ℚ)
  | failed
deriving Repr, DecidableEq

/-- The running best of `AutoMLService.run`: `best_score` (`none` encodes
the initial `float('inf')`) and `best_algorithm` (initially `""`). -/
structure RunBest where
  best_score : Option ℚ
  best_algorithm : String
deriving Repr, DecidableEq

/-- `result["best_score"] < self.best_score` against the float-infinity
initial value. -/
def scoreLt (s : ℚ) (cur : Option ℚ) : Bool :=
  match cur with
  | none => true
  | some b => s < b

/-- The best-update part of the `for algorithm in algorithms` loop of
`run`: a completed result replaces the best on strict improvement; a
failure is caught and leaves the best untouched. -/
def run_go : List (String × OptOutcome) → RunBest → RunBest
  | [], st => st
  | r :: rs, st =>
    match r.2 with
    | .completed s =>
      if scoreLt s st.best_score then run_go rs ⟨some s, r.1⟩ else run_go rs st
    | .failed => run_go rs st

/-- The final best after the whole loop, starting from
`best_score = inf`, `best_algorithm = ""`. -/
def run_select (rs : List (String × OptOutcome)) : RunBest :=
  run_go rs ⟨none, ""⟩

/-- The statuses recorded in `all_results`: every algorithm appears,
completed ones with status `"completed"`, caught failures with status
`"failed"` (and the loop continues past them). -/
def run_results (rs : List (String × OptOutcome)) : List (String × String) :=
  rs.map fun r =>
    (r.1, match r.2 with
      | .completed _ => "completed"
      | .failed => "failed")

/-- The non-failed candidates of an invocation, with their best scores,
in requested order. -/
def completedOf (rs : List (String × OptOutcome)) : List (String × ℚ) :=
  rs.filterMap fun r =>
    match r.2 with
    | .completed s => some (r.1, s)
    | .failed => none

/-- Selection invariant of the loop: candidate `p` beats the incumbent
best score `b?` and is minimal among the scores in `cs`. -/
def minPred (cs : List (String × ℚ)) (b? : Option ℚ) (p : String × ℚ) : Bool :=
  scoreLt p.2 b? && (cs.all fun q => decide (p.2 ≤ q.2))

/-- The claim's own words, as a definition to refine against: the earliest
non-failed candidate whose best score is the global minimum of the
non-failed best scores. -/
def spec_best (rs : List (String × OptOutcome)) : Option (String × ℚ) :=
  (completedOf rs).find? fun p => (completedOf rs).all fun q => decide (p.2 ≤ q.2)

/-! ## LightGBM forecaster adapter (`lightgbm_model.py`)

The gradient-boosting internals belong to the external library: the
trained regressor is abstracted as a per-row prediction function produced
by a `train` parameter standing for `LGBMRegressor(...).fit`, and the
numeric primitives `np.std` and `scipy.stats.norm.ppf` are abstracted as
function parameters `np_std` and `norm_ppf`. -/

/-- `X.fillna(0)`: every NaN feature entry becomes `0`; no row is
dropped. -/
def fillna0 (X : List (List (Option ℚ))) : List (List ℚ) :=
  X.map fun row => row.map fun v => v.getD 0

/-- Forward fill with a carried last defined value
(`fillna(method='ffill')` leaves a leading NaN prefix untouched). -/
def ffill_go (last : Option ℚ) : List (Option ℚ) → List (Option ℚ)
  | [] => []
  | none :: vs => last :: ffill_go last vs
  | some x :: vs => some x :: ffill_go (some x) vs

/-- `y.fillna(method='ffill')`. -/
def ffill (y : List (Option ℚ)) : List (Option ℚ) := ffill_go none y

/-- `y.fillna(method='bfill')`: a forward fill on the reversed list. -/
def bfill (y : List (Option ℚ)) : List (Option ℚ) :=
  (ffill_go none y.reverse).reverse

/-- `y.fillna(method='ffill').fillna(method='bfill')` — in this order: an
interior NaN takes the *prior* defined value, and only a leading NaN
prefix is filled backward. -/
def fill_target (y : List (Option ℚ)) : List (Option ℚ) := bfill (ffill y)

/-- The fit-time residuals `y_train - y_pred` over the (NaN-filled)
training rows.  When `y` has at least one defined entry `fill_target y`
is NaN-free and reading its entries defaults harmlessly. -/
def fit_residuals (train : List (List ℚ) → List ℚ → (List ℚ → ℚ))
    (X : List (List (Option ℚ))) (y : List (Option ℚ)) : List ℚ :=
  ((fill_target y).map fun v => v.getD 0).zipWith (· - ·)
    ((fillna0 X).map (train (fillna0 X) ((fill_target y).map fun v => v.getD 0)))

/-- The fitted state of `LightGBMForecaster`: the trained library
regressor and `residual_std` as computed at fit time. -/
structure LGBMFitted where
  predictRow : List ℚ → ℚ
  residual_std : ℚ

/-- `LightGBMForecaster.fit` (feature scaling off, the default): fill
NaNs (`X.fillna(0)`, `y.ffill().bfill()`), fit the library model, and
store `residual_std = np.std(y_train - y_pred)`. -/
def lgbm_fit (train : List (List ℚ) → List ℚ → (List ℚ → ℚ))
    (np_std : List ℚ → ℚ) (X : List (List (Option ℚ)))
    (y : List (Option ℚ)) : LGBMFitted :=
  { predictRow := train (fillna0 X) ((fill_target y).map fun v => v.getD 0)
    residual_std := np_std (fit_residuals train X y) }

/-- `LightGBMForecaster.predict`: `X.fillna(0)`, then the library model
row by row — one prediction per input row. -/
def lgbm_predict (st : LGBMFitted) (X : List (List (Option ℚ))) : List ℚ :=
  (fillna0 X).map st.predictRow

/-- `LightGBMForecaster.predict_interval`:
`z = norm.ppf((1 + confidence)/2)`, `margin = z * residual_std`, and the
triple `(predictions, predictions - margin, predictions + margin)`. -/
def lgbm_predict_interval (norm_ppf : ℚ → ℚ) (st : LGBMFitted)
    (X : List (List (Option ℚ))) (confidence : ℚ) :
    List ℚ × List ℚ × List ℚ :=
  (lgbm_predict st X,
   (lgbm_predict st X).map fun p =>
     p - norm_ppf ((1 + confidence) / 2) * st.residual_std,
   (lgbm_predict st X).map fun p =>
     p + norm_ppf ((1 + confidence) / 2) * st.residual_std)

/-- Modelled from the spec: `XGBoostForecaster.predict_interval`
(`xgboost_model.py` is imported by `app.services.forecasting` but its
source is not under `src/`).  Spec §4.2: a tabular-regression forecaster
without native interval output derives a symmetric interval from the
residual standard deviation observed at fit time, scaled by the
normal-distribution quantile for the requested confidence. -/
def xgb_predict_interval (norm_ppf : ℚ → ℚ) (residual_std : ℚ)
    (point : List ℚ) (confidence : ℚ) : List ℚ × List ℚ × List ℚ :=
  (point,
   point.map fun p => p - norm_ppf ((1 + confidence) / 2) * residual_std,
   point.map fun p => p + norm_ppf ((1 + confidence) / 2) * residual_std)


end Forecast

namespace Forecast

/-- **C1** — the spec claims every rolling feature at row `i` is computed
over the trailing window *excluding* the current point, never reading the
target at or after index `i`, and is undefined until `W` prior points
exist.  `create_rolling_features` (feature_service.py) violates this: with
`W = 7`, the two series below agree on all indices `< 7` yet their
`rolling_mean_7` at row `7` differ (the feature reads `t[7]`), and the
feature is already defined at row `6`, where only 6 prior points exist. -/
theorem C1_fs_rolling_reads_current_point :
    fs_rolling_mean [0, 0, 0, 0, 0, 0, 0, 7] 7 7 = some 1 ∧
    fs_rolling_mean [0, 0, 0, 0, 0, 0, 0, 0] 7 7 = some 0 ∧
    fs_rolling_mean [0, 0, 0, 0, 0, 0, 0, 7] 7 6 = some 0 := by
  refine ⟨?_, ?_, ?_⟩ <;> norm_num [fs_rolling_mean, window, mean]

/-! ### Row count and alignment of `create_features` (claim C2) -/

lemma length_window (t : List ℚ) (lo W : ℕ) (h : lo + W ≤ t.length) :
    (window t lo W).length = W := by
  simp only [window, List.length_take, List.length_drop]
  omega

lemma lag_feature_isSome (t : List ℚ) (L i : ℕ) (hi : i < t.length) :
    (lag_feature t L i).isSome = true ↔ L ≤ i := by
  unfold lag_feature
  by_cases h : L ≤ i <;> simp [h, hi]

lemma ml_rolling_mean_isSome (t : List ℚ) (W i : ℕ) (hi : i < t.length) :
    (ml_rolling_mean t W i).isSome = true ↔ 1 ≤ W ∧ W ≤ i := by
  unfold ml_rolling_mean
  by_cases h : 1 ≤ W ∧ W ≤ i <;> simp [h, hi]

lemma ml_rolling_std_isSome (t : List ℚ) (W i : ℕ) (hi : i < t.length)
    (hW : 2 ≤ W) : (ml_rolling_std t W i).isSome = true ↔ W ≤ i := by
  unfold ml_rolling_std
  by_cases h : W ≤ i
  · have hlen : (window t (i - W) W).length = W :=
      length_window t (i - W) W (by omega)
    have h1 : 1 ≤ W := by omega
    simp [h, hi, h1, varSample, hlen, hW]
  · have : ¬(1 ≤ W ∧ W ≤ i ∧ i < t.length) := by tauto
    simp [this, h]

lemma foldr_max_le (l : List ℕ) (i : ℕ) :
    l.foldr max 0 ≤ i ↔ ∀ x ∈ l, x ≤ i := by
  induction l with
  | nil => simp
  | cons a l ih => simp [max_le_iff, ih]

lemma ml_feature_row_all_isSome (t : List ℚ) (dates : List Date) (i : ℕ)
    (hi : i < t.length) :
    (ml_feature_row t dates i).all Option.isSome = true ↔
      mlMaxIndex t.length ≤ i := by
  rw [List.all_eq_true]
  unfold mlMaxIndex
  rw [max_le_iff, foldr_max_le, foldr_max_le]
  unfold ml_feature_row
  constructor
  · intro h
    constructor
    · intro L hL
      have hmem : lag_feature t L i ∈
          (ml_lags t.length).map (fun L => lag_feature t L i) ++
          ((ml_windows t.length).flatMap
            (fun W => [ml_rolling_mean t W i, ml_rolling_std t W i]) ++
            date_features (dates.getD i default)) := by
        refine List.mem_append_left _ ?_
        exact List.mem_map_of_mem _ hL
      have := h _ (by simpa using hmem)
      exact (lag_feature_isSome t L i hi).mp this
    · intro W hW
      have hmem : ml_rolling_mean t W i ∈
          (ml_lags t.length).map (fun L => lag_feature t L i) ++
          ((ml_windows t.length).flatMap
            (fun W => [ml_rolling_mean t W i, ml_rolling_std t W i]) ++
            date_features (dates.getD i default)) := by
        refine List.mem_append_right _ (List.mem_append_left _ ?_)
        rw [List.mem_flatMap]
        exact ⟨W, hW, by simp⟩
      have := h _ (by simpa using hmem)
      exact ((ml_rolling_mean_isSome t W i hi).mp this).2
  · intro ⟨hl, hw⟩ v hv
    simp only [List.mem_append, List.mem_map, List.mem_flatMap] at hv
    rcases hv with (⟨L, hL, rfl⟩ | ⟨W, hW, hv⟩) | hd
    · exact (lag_feature_isSome t L i hi).mpr (hl L hL)
    · have hW2 : 2 ≤ W := by
        have : W ∈ [7, 14, 28] := (List.mem_filter.mp hW).1
        simp at this
        omega
      simp only [List.mem_cons, List.mem_singleton] at hv
      rcases hv with rfl | rfl | h
      · exact (ml_rolling_mean_isSome t W i hi).mpr ⟨by omega, hw W hW⟩
      · exact (ml_rolling_std_isSome t W i hi hW2).mpr (hw W hW)
      · cases h
    · unfold date_features at hd
      simp only [List.mem_cons] at hd
      rcases hd with rfl | rfl | rfl | rfl | rfl | h
      · rfl
      · rfl
      · rfl
      · rfl
      · rfl
      · cases h

lemma range_filter_le (n m : ℕ) :
    (List.range n).filter (fun i => decide (m ≤ i)) =
      (List.range (n - m)).map (m + ·) := by
  induction n with
  | zero => simp
  | succ n ih =>
    rw [List.range_succ, List.filter_append, ih]
    by_cases h : m ≤ n
    · have h1 : n + 1 - m = (n - m) + 1 := by omega
      have h2 : m + (n - m) = n := by omega
      rw [h1, List.range_succ, List.map_append]
      simp [h, h2]
    · have h1 : n + 1 - m = 0 := by omega
      have h2 : n - m = 0 := by omega
      simp [h, h1, h2]

lemma ml_kept_eq (t : List ℚ) (dates : List Date) :
    ml_kept t dates =
      (List.range (t.length - mlMaxIndex t.length)).map (mlMaxIndex t.length + ·) := by
  unfold ml_kept
  rw [← range_filter_le]
  apply List.filter_congr
  intro i hi
  rw [List.mem_range] at hi
  rw [Bool.eq_iff_iff, decide_eq_true_eq]
  exact ml_feature_row_all_isSome t dates i hi

lemma map_range_getD (t : List ℚ) (m : ℕ) :
    (List.range (t.length - m)).map (fun j => t.getD (m + j) 0) = t.drop m := by
  apply List.ext_getElem
  · simp
  · intro j h1 h2
    simp only [List.getElem_map, List.getElem_range, List.getElem_drop]
    simp only [List.length_drop] at h2
    exact List.getD_eq_getElem t 0 (by omega)

/-- **C2** (amended) — `create_features`, the only derivation that prunes
undefined rows, keeps exactly the rows from index `max(maxLag, maxWindow)`
on: the returned target vector is precisely `t.drop (mlMaxIndex n)` (so the
row count is `n - max(maxLag, maxWindow)` and matrix, target and frame
stay aligned row-for-row: row `j` of `X` is built from original index
`mlMaxIndex n + j`, the same index that produced entry `j` of `y`).
`create_all_features` (feature_service) drops no rows at all — see the
counterexample. -/
theorem C2_ml_row_count_and_alignment (t : List ℚ) (dates : List Date) :
    (ml_create_features t dates).2 = t.drop (mlMaxIndex t.length) ∧
    (ml_create_features t dates).2.length = t.length - mlMaxIndex t.length ∧
    (ml_create_features t dates).1.length = t.length - mlMaxIndex t.length ∧
    (ml_create_features t dates).1 =
      (List.range (t.length - mlMaxIndex t.length)).map
        (fun j => (ml_feature_row t dates (mlMaxIndex t.length + j)).map
          (fun v => v.getD 0)) := by
  have hy : (ml_create_features t dates).2 = t.drop (mlMaxIndex t.length) := by
    show (ml_kept t dates).map (fun i => t.getD i 0) = _
    rw [ml_kept_eq, List.map_map, ← map_range_getD t (mlMaxIndex t.length)]
    rfl
  refine ⟨hy, ?_, ?_, ?_⟩
  · rw [hy]; simp
  · show ((ml_kept t dates).map _).length = _
    rw [ml_kept_eq]; simp
  · show (ml_kept t dates).map _ = _
    rw [ml_kept_eq, List.map_map]
    rfl

/-- **C2** (counterexample to the claim as stated) — feeding a NaN-free
series of length 40 through `create_all_features` with its default lag
periods `[1,7,14,30]` and rolling windows `[7,14,30]` returns all 40 rows;
the claimed row count `n - max(maxLag, maxWindow)` would be `10`.  No row
with undefined lag/rolling entries is dropped. -/
theorem C2_fs_drops_no_rows :
    (fs_create_all_features (List.replicate 40 1) [1, 7, 14, 30] [7, 14, 30]).length = 40 ∧
    40 - max ([1, 7, 14, 30].foldr max 0) ([7, 14, 30].foldr max 0) = 10 ∧
    (40 : ℕ) ≠ 10 := by
  refine ⟨?_, by decide, by decide⟩
  simp [fs_create_all_features]

/-! ### NaN and zero handling in the metric evaluator (claim C5) -/

lemma cleanPairs_somes (l : List (ℚ × ℚ)) :
    cleanPairs (l.map fun p => some p.1) (l.map fun p => some p.2) = l := by
  induction l with
  | nil => rfl
  | cons a l ih =>
    simp only [List.map_cons, cleanPairs, List.zip_cons_cons, List.filterMap_cons]
    simpa [cleanPairs] using ih

/-- **C5** — the evaluator first excludes NaN pairs (its result on any
input equals its result on the retained pairs alone); MAPE is `none`
exactly when no retained pair has a nonzero actual (never zero or an
infinity — the codomain of `mape` has no such encoding and `none` is the
absent marker); on `actual = [0,0,0]` MAPE is absent; on
`actual = [10,20], predicted = [11,18]` it is exactly `10`. -/
theorem C5_mape_nan_and_zero_handling :
    (∀ y_true y_pred : List (Option ℚ),
      evaluate y_true y_pred =
        evaluate ((cleanPairs y_true y_pred).map fun p => some p.1)
          ((cleanPairs y_true y_pred).map fun p => some p.2)) ∧
    (∀ y_true y_pred : List (Option ℚ),
      (evaluate y_true y_pred).mape = none ↔
        ∀ p ∈ cleanPairs y_true y_pred, p.1 = 0) ∧
    (evaluate [some 0, some 0, some 0] [some 1, some 2, some 3]).mape = none ∧
    (evaluate [some 10, some 20] [some 11, some 18]).mape = some 10 := by
  refine ⟨?_, ?_, ?_, ?_⟩
  · intro y_true y_pred
    unfold evaluate
    rw [cleanPairs_somes]
  · intro y_true y_pred
    unfold evaluate
    by_cases h : (cleanPairs y_true y_pred).length = 0
    · rw [if_pos h]
      rw [List.length_eq_zero] at h
      simp [h]
    · rw [if_neg h]
      show mapeOf (cleanPairs y_true y_pred) = none ↔ _
      unfold mapeOf
      by_cases hnz : (nonzeroPairs (cleanPairs y_true y_pred)).length = 0
      · have hall : ∀ p ∈ cleanPairs y_true y_pred, p.1 = 0 := by
          rw [List.length_eq_zero] at hnz
          unfold nonzeroPairs at hnz
          rw [List.filter_eq_nil_iff] at hnz
          intro p hp
          simpa using hnz p hp
        simp only [hnz, not_true, if_neg, not_not, not_false_iff]
        exact iff_of_true (by simp) hall
      · rw [if_pos hnz]
        have hfil : nonzeroPairs (cleanPairs y_true y_pred) ≠ [] := by
          intro hc
          exact hnz (by rw [hc]; rfl)
        obtain ⟨p, hp⟩ := List.exists_mem_of_ne_nil _ hfil
        have hmem := List.mem_filter.mp hp
        have hp0 : p.1 ≠ 0 := by simpa using hmem.2
        exact iff_of_false (Option.some_ne_none _)
          fun hall => absurd (hall p hmem.1) hp0
  · have hc : cleanPairs [some 0, some 0, some 0] [some 1, some 2, some 3] =
        [(0, 1), (0, 2), (0, 3)] := rfl
    simp only [evaluate, hc]
    norm_num [mapeOf, nonzeroPairs, List.filter]
  · have hc : cleanPairs [some 10, some 20] [some 11, some 18] =
        [(10, 11), (20, 18)] := rfl
    simp only [evaluate, hc]
    norm_num [mapeOf, nonzeroPairs, List.filter, mean]
    rw [abs_of_pos] <;> norm_num

/-! ### Walk-forward fold structure (claims C6, C7, C8) -/

lemma bt_loop_eq (model : Predictor) (X : List (List ℚ)) (y : List ℚ)
    (test step n fold trainEnd : ℕ) :
    bt_loop model X y test step n fold trainEnd =
      if trainEnd + test ≤ n ∧ 0 < step then
        bt_fold_at model X y test n fold trainEnd ::
          bt_loop model X y test step n (fold + 1) (trainEnd + step)
      else [] := by
  rw [bt_loop]
  exact dite_eq_ite

lemma bt_loop_getElem? (model : Predictor) (X : List (List ℚ)) (y : List ℚ)
    (test step n : ℕ) (hstep : 0 < step) (k : ℕ) :
    ∀ fold trainEnd,
      (bt_loop model X y test step n fold trainEnd)[k]? =
        if trainEnd + step * k + test ≤ n
        then some (bt_fold_at model X y test n (fold + k) (trainEnd + step * k))
        else none := by
  induction k with
  | zero =>
    intro fold trainEnd
    rw [bt_loop_eq]
    by_cases h : trainEnd + test ≤ n
    · rw [if_pos ⟨h, hstep⟩]
      simp [h]
    · rw [if_neg (by tauto)]
      simp only [List.getElem?_nil]
      rw [if_neg (by omega)]
  | succ k ih =>
    intro fold trainEnd
    rw [bt_loop_eq]
    by_cases h : trainEnd + test ≤ n
    · rw [if_pos ⟨h, hstep⟩]
      simp only [List.getElem?_cons_succ]
      rw [ih (fold + 1) (trainEnd + step)]
      have h1 : trainEnd + step + step * k = trainEnd + step * (k + 1) := by ring
      have h2 : fold + 1 + k = fold + (k + 1) := by omega
      rw [h1, h2]
    · rw [if_neg (by tauto)]
      simp only [List.getElem?_nil]
      have hlow : trainEnd + test ≤ trainEnd + step * (k + 1) + test := by
        have := Nat.le_add_right (trainEnd + test) (step * (k + 1))
        omega
      rw [if_neg (by omega)]

/-- **C6** — walk-forward fold structure.  When
`totalRows ≥ initialTrainSize + testSize` (and the step is positive) the
backtest succeeds, and its `k`-th fold — present exactly while
`initial + step·k + testSize ≤ totalRows` — trains a fresh model on rows
`[0, trainEnd)` and tests on rows `[trainEnd, trainEnd + testSize)` with
`trainEnd = initial + step·k`; with `n = 100`, `initial = 60`,
`test = 20`, `step = 20` there are exactly 2 folds, train `[0,60)` test
`[60,80)` and train `[0,80)` test `[80,100)`. -/
theorem C6_walk_forward_fold_structure :
    (∀ (model : Predictor) (X : List (List ℚ)) (y : List ℚ)
        (initial test step : ℕ), 0 < step → initial + test ≤ y.length →
      ∃ rep, backtest model X y initial test step = .ok rep ∧
        rep.num_folds = rep.fold_results.length ∧
        ∀ k, rep.fold_results[k]? =
          if initial + step * k + test ≤ y.length
          then some (bt_fold_at model X y test y.length k (initial + step * k))
          else none) ∧
    (∀ (model : Predictor) (X : List (List ℚ)) (y : List ℚ),
      y.length = 100 →
      ∃ rep, backtest model X y 60 20 20 = .ok rep ∧
        rep.num_folds = 2 ∧
        rep.fold_results.map (fun f => (f.fold, f.trainEnd, f.testStart, f.testEnd)) =
          [(1, 60, 60, 80), (2, 80, 80, 100)]) := by
  constructor
  · intro model X y initial test step hstep hlen
    obtain ⟨rep, hrep⟩ : ∃ rep, backtest model X y initial test step = .ok rep := by
      unfold backtest
      rw [if_neg (by omega)]
      exact ⟨_, rfl⟩
    refine ⟨rep, hrep, ?_, ?_⟩
    all_goals
      unfold backtest at hrep
      rw [if_neg (by omega)] at hrep
      have heq := Except.ok.inj hrep
      subst heq
    · rfl
    · intro k
      have := bt_loop_getElem? model X y test step y.length hstep k 0 initial
      simpa using this
  · intro model X y hy
    obtain ⟨rep, hrep⟩ : ∃ rep, backtest model X y 60 20 20 = .ok rep := by
      unfold backtest
      rw [if_neg (by omega)]
      exact ⟨_, rfl⟩
    refine ⟨rep, hrep, ?_, ?_⟩
    all_goals
      unfold backtest at hrep
      rw [if_neg (by omega)] at hrep
      have heq := Except.ok.inj hrep
      subst heq
    · show (bt_loop model X y 20 20 y.length 0 60).length = 2
      rw [bt_loop_eq, if_pos (by omega), bt_loop_eq, if_pos (by omega),
        bt_loop_eq, if_neg (by omega)]
      rfl
    · show (bt_loop model X y 20 20 y.length 0 60).map _ = _
      rw [bt_loop_eq, if_pos (by omega), bt_loop_eq, if_pos (by omega),
        bt_loop_eq, if_neg (by omega)]
      simp [bt_fold_at, hy]

/-- **C6** witness: the general part applied at the spec's concrete
example. -/
theorem C6_walk_forward_fold_structure_witness :
    ∃ rep,
      backtest (fun _ _ tx => tx.map fun _ => (0 : ℚ))
        (List.replicate 100 []) (List.replicate 100 (1 : ℚ)) 60 20 20 = .ok rep ∧
      rep.num_folds = rep.fold_results.length ∧
      ∀ k, rep.fold_results[k]? =
        if 60 + 20 * k + 20 ≤ (List.replicate 100 (1 : ℚ)).length
        then some (bt_fold_at (fun _ _ tx => tx.map fun _ => (0 : ℚ))
          (List.replicate 100 []) (List.replicate 100 (1 : ℚ)) 20
          (List.replicate 100 (1 : ℚ)).length k (60 + 20 * k))
        else none :=
  C6_walk_forward_fold_structure.1 _ _ _ 60 20 20 (by omega) (by simp)

/-- **C7** — for fewer rows than `initialTrainSize + testSize` the
backtester fails with the insufficient-data error naming the required and
available row counts, for *every* model (so no model is ever fitted and no
partial fold is produced — the result carries no folds). -/
theorem C7_insufficient_data_error (model : Predictor) (X : List (List ℚ))
    (y : List ℚ) (initial test step : ℕ) (h : y.length < initial + test) :
    backtest model X y initial test step =
      .error (.insufficientData (initial + test) y.length) := by
  unfold backtest
  rw [if_pos h]

/-- **C7** witness: 50 rows against `initial = 60`, `test = 20`. -/
theorem C7_insufficient_data_error_witness :
    backtest (fun _ _ tx => tx.map fun _ => (0 : ℚ)) []
      (List.replicate 50 (1 : ℚ)) 60 20 20 =
      .error (.insufficientData 80 50) := by
  have h : (List.replicate 50 (1 : ℚ)).length < 60 + 20 := by simp
  simpa using C7_insufficient_data_error _ [] _ 60 20 20 h

/-- **C8** — a backtest over `y = [1,1,1,2]`
(`initial = 2`, `test = 1`, `step = 1`), predicting each fold's training
mean: fold 1 tests on actual `[1]` (a nonzero actual, so its MAPE is
defined, with value `0` — a perfect prediction) and fold 2 tests on `[2]`
with MAPE `50`.  The source's `float(mape) if mape else None` stores fold
1's zero MAPE as `None` and the statistics line's truthiness filter drops
it, so `mape_mean` comes out as `50` — not the claim's mean over all folds
with a defined MAPE, `(0 + 50)/2 = 25`. -/
theorem C8_zero_mape_fold_dropped :
    (backtest (fun _ ty tx => tx.map fun _ => mean ty)
        (List.replicate 4 []) [1, 1, 1, 2] 2 1 1).map
        (fun rep => (rep.fold_results.map fun f => (f.testY, f.metrics.mape),
          rep.mape_mean)) =
      .ok ([([1], none), ([2], some 50)], some 50) ∧
    ((0 : ℚ) + 50) / 2 ≠ 50 := by
  constructor
  · unfold backtest
    rw [if_neg (by norm_num)]
    rw [bt_loop_eq, if_pos (by norm_num), bt_loop_eq, if_pos (by norm_num),
      bt_loop_eq, if_neg (by norm_num)]
    simp only [Except.map]
    norm_num [bt_fold_at, bt_calculate_metrics, bt_mape0, pyTruthyFloat,
      mean, popVar, List.filter]
    rw [abs_of_pos (by norm_num : (0 : ℚ) < 1 / 2)]
    norm_num [pyTruthyFloat, List.filterMap]
    exact Option.some_ne_none _
  · norm_num

/-! ### Best-candidate selection in the AutoML loop (claims C3, C4) -/

lemma find?_congr_mem {α : Type} (l : List α) (p q : α → Bool)
    (h : ∀ x ∈ l, p x = q x) : l.find? p = l.find? q := by
  induction l with
  | nil => rfl
  | cons a l ih =>
    have ha := h a (List.mem_cons_self a l)
    cases hq : q a with
    | true =>
      rw [List.find?_cons_of_pos _ (ha.trans hq), List.find?_cons_of_pos _ hq]
    | false =>
      rw [List.find?_cons_of_neg _ (by simp [ha, hq]),
        List.find?_cons_of_neg _ (by simp [hq])]
      exact ih fun x hx => h x (List.mem_cons_of_mem a hx)

lemma exists_min_ne_nil (l : List (String × ℚ)) (h : l ≠ []) :
    ∃ m ∈ l, ∀ q ∈ l, m.2 ≤ q.2 := by
  induction l with
  | nil => cases h rfl
  | cons a l ih =>
    rcases eq_or_ne l [] with rfl | hl
    · exact ⟨a, List.mem_cons_self a [], by simp⟩
    · obtain ⟨m, hm, hmin⟩ := ih hl
      rcases le_total a.2 m.2 with hle | hle
      · refine ⟨a, List.mem_cons_self a l, ?_⟩
        intro q hq
        rcases List.mem_cons.mp hq with rfl | hq
        · exact le_refl _
        · exact le_trans hle (hmin q hq)
      · refine ⟨m, List.mem_cons_of_mem a hm, ?_⟩
        intro q hq
        rcases List.mem_cons.mp hq with rfl | hq
        · exact hle
        · exact hmin q hq

lemma run_go_spec (rs : List (String × OptOutcome)) :
    ∀ (b? : Option ℚ) (a : String),
      run_go rs ⟨b?, a⟩ =
        ((completedOf rs).find? (minPred (completedOf rs) b?)).elim
          ⟨b?, a⟩ (fun p => ⟨some p.2, p.1⟩) := by
  induction rs with
  | nil => intro b? a; rfl
  | cons r rs ih =>
    intro b? a
    obtain ⟨name, out⟩ := r
    cases out with
    | failed =>
      have hc : completedOf ((name, OptOutcome.failed) :: rs) = completedOf rs := by
        simp [completedOf]
      rw [hc]
      exact ih b? a
    | completed s =>
      have hc : completedOf ((name, OptOutcome.completed s) :: rs) =
          (name, s) :: completedOf rs := by
        simp [completedOf]
      rw [hc]
      show (if scoreLt s b? = true then run_go rs ⟨some s, name⟩
        else run_go rs ⟨b?, a⟩) = _
      by_cases hlt : scoreLt s b? = true
      · rw [if_pos hlt, ih (some s) name]
        by_cases hmin : ∀ q ∈ completedOf rs, s ≤ q.2
        · have hhead : minPred ((name, s) :: completedOf rs) b? (name, s) = true := by
            simp only [minPred, List.all_cons, hlt, Bool.true_and, Bool.and_eq_true,
              decide_eq_true_eq, List.all_eq_true]
            exact ⟨le_refl s, fun q hq => by simpa using hmin q hq⟩
          rw [List.find?_cons_of_pos _ hhead]
          have hnone : (completedOf rs).find? (minPred (completedOf rs) (some s)) = none := by
            rw [List.find?_eq_none]
            intro p hp hpred
            simp only [minPred, scoreLt, Bool.and_eq_true, decide_eq_true_eq] at hpred
            exact absurd hpred.1 (not_lt.mpr (hmin p hp))
          rw [hnone]
          rfl
        · push_neg at hmin
          obtain ⟨q₀, hq₀, hq₀lt⟩ := hmin
          have hhead : minPred ((name, s) :: completedOf rs) b? (name, s) = false := by
            have hallf : (((name, s) :: completedOf rs).all
                fun q => decide ((name, s).2 ≤ q.2)) = false := by
              apply Bool.eq_false_iff.mpr
              intro hall
              have := List.all_eq_true.mp hall q₀ (List.mem_cons_of_mem _ hq₀)
              rw [decide_eq_true_eq] at this
              exact absurd this (not_le.mpr hq₀lt)
            simp only [minPred, hallf, Bool.and_false]
          rw [List.find?_cons_of_neg _ (by simp [hhead])]
          have hagree : ∀ p ∈ completedOf rs,
              minPred (completedOf rs) (some s) p =
                minPred ((name, s) :: completedOf rs) b? p := by
            intro p _
            cases hallcs : (completedOf rs).all fun q => decide (p.2 ≤ q.2) with
            | false => simp [minPred, List.all_cons, hallcs]
            | true =>
              have hps : p.2 < s := by
                have := List.all_eq_true.mp hallcs q₀ hq₀
                rw [decide_eq_true_eq] at this
                exact lt_of_le_of_lt this hq₀lt
              have h2 : scoreLt p.2 b? = true := by
                cases b? with
                | none => rfl
                | some b =>
                  have hsb : s < b := by simpa [scoreLt] using hlt
                  simp [scoreLt, lt_trans hps hsb]
              have h1 : scoreLt p.2 (some s) = true := by simp [scoreLt, hps]
              simp [minPred, List.all_cons, hallcs, h1, h2, le_of_lt hps]
          rw [find?_congr_mem _ _ _ hagree]
          obtain ⟨m, hm, hmmin⟩ := exists_min_ne_nil (completedOf rs)
            (List.ne_nil_of_mem hq₀)
          have hfound : ((completedOf rs).find?
              (minPred ((name, s) :: completedOf rs) b?)).isSome := by
            rw [List.find?_isSome]
            refine ⟨m, hm, ?_⟩
            have hms : m.2 < s := lt_of_le_of_lt (hmmin q₀ hq₀) hq₀lt
            have h2 : scoreLt m.2 b? = true := by
              cases b? with
              | none => rfl
              | some b =>
                have hsb : s < b := by simpa [scoreLt] using hlt
                simp [scoreLt, lt_trans hms hsb]
            simp only [minPred, List.all_cons, h2, Bool.true_and, Bool.and_eq_true,
              decide_eq_true_eq, List.all_eq_true]
            exact ⟨le_of_lt hms, fun q hq => by simpa using hmmin q hq⟩
          obtain ⟨p, hp⟩ := Option.isSome_iff_exists.mp hfound
          rw [hp]
          rfl
      · have hlt' : scoreLt s b? = false := Bool.eq_false_iff.mpr hlt
        rw [if_neg hlt, ih b? a]
        rw [List.find?_cons_of_neg _ (by simp [minPred, hlt'])]
        have hagree : ∀ p ∈ completedOf rs,
            minPred (completedOf rs) b? p =
              minPred ((name, s) :: completedOf rs) b? p := by
          intro p _
          cases hpb : scoreLt p.2 b? with
          | false => simp [minPred, hpb]
          | true =>
            obtain ⟨b, rfl⟩ : ∃ b, b? = some b := by
              cases b? with
              | none => exact absurd rfl hlt
              | some b => exact ⟨b, rfl⟩
            have hbs : b ≤ s := by
              have hns : ¬s < b := by simpa [scoreLt] using hlt'
              exact le_of_not_lt hns
            have hps : p.2 ≤ s := by
              have hpb' : p.2 < b := by simpa [scoreLt] using hpb
              exact le_of_lt (lt_of_lt_of_le hpb' hbs)
            simp [minPred, List.all_cons, hpb, hps]
        rw [find?_congr_mem _ _ _ hagree]


/-- **C4** — best-candidate selection in `AutoMLService.run`: every
algorithm of the invocation appears in `all_results` (a candidate whose
search raises is caught, recorded with status `"failed"`, and the loop
continues past it), and whenever at least one candidate completes, the
loop's final best is exactly the claim's selection: the earliest
non-failed candidate whose best-trial score is the global minimum over
the non-failed candidates.  The selected candidate is always a completed
one — failures are excluded from best-selection. -/
theorem C4_best_selection (rs : List (String × OptOutcome)) :
    (run_results rs).length = rs.length ∧
    (∀ a, (a, OptOutcome.failed) ∈ rs → (a, "failed") ∈ run_results rs) ∧
    (completedOf rs ≠ [] →
      ∃ p, spec_best rs = some p ∧
        run_select rs = ⟨some p.2, p.1⟩ ∧
        (p.1, OptOutcome.completed p.2) ∈ rs ∧
        ∀ q ∈ completedOf rs, p.2 ≤ q.2) := by
  refine ⟨by simp [run_results], ?_, ?_⟩
  · intro a ha
    unfold run_results
    exact List.mem_map.mpr ⟨(a, OptOutcome.failed), ha, rfl⟩
  · intro hne
    have hpred : ∀ p ∈ completedOf rs,
        ((completedOf rs).all fun q => decide (p.2 ≤ q.2)) =
          minPred (completedOf rs) none p := by
      intro p _
      simp [minPred, scoreLt]
    have hspec : spec_best rs =
        (completedOf rs).find? (minPred (completedOf rs) none) :=
      find?_congr_mem _ _ _ hpred
    obtain ⟨m, hm, hmmin⟩ := exists_min_ne_nil _ hne
    have hfound : ((completedOf rs).find? (minPred (completedOf rs) none)).isSome := by
      rw [List.find?_isSome]
      refine ⟨m, hm, ?_⟩
      simp only [minPred, scoreLt, Bool.true_and, List.all_eq_true, decide_eq_true_eq]
      exact fun q hq => hmmin q hq
    obtain ⟨p, hp⟩ := Option.isSome_iff_exists.mp hfound
    refine ⟨p, by rw [hspec, hp], ?_, ?_, ?_⟩
    · show run_go rs ⟨none, ""⟩ = _
      rw [run_go_spec rs none "", hp]
      rfl
    · have hpmem : p ∈ completedOf rs := List.mem_of_find?_eq_some hp
      unfold completedOf at hpmem
      rw [List.mem_filterMap] at hpmem
      obtain ⟨r, hr, hmatch⟩ := hpmem
      obtain ⟨rn, rout⟩ := r
      cases rout with
      | failed => simp at hmatch
      | completed s' =>
        simp only [Option.some.injEq] at hmatch
        rw [← hmatch]
        exact hr
    · have hptrue := List.find?_some hp
      simp only [minPred, scoreLt, Bool.true_and, List.all_eq_true,
        decide_eq_true_eq] at hptrue
      exact hptrue

/-- **C4** witness: four candidates, one failing, a tie on the minimal
score broken in favor of the earlier candidate. -/
theorem C4_best_selection_witness :
    completedOf [("prophet", OptOutcome.failed), ("xgboost", OptOutcome.completed 5),
        ("lightgbm", OptOutcome.completed 3), ("arima", OptOutcome.completed 3)] ≠ [] ∧
    ∃ p, spec_best [("prophet", OptOutcome.failed), ("xgboost", OptOutcome.completed 5),
        ("lightgbm", OptOutcome.completed 3), ("arima", OptOutcome.completed 3)] = some p ∧
      run_select [("prophet", OptOutcome.failed), ("xgboost", OptOutcome.completed 5),
        ("lightgbm", OptOutcome.completed 3), ("arima", OptOutcome.completed 3)] =
        ⟨some p.2, p.1⟩ ∧
      (p.1, OptOutcome.completed p.2) ∈
        [("prophet", OptOutcome.failed), ("xgboost", OptOutcome.completed 5),
          ("lightgbm", OptOutcome.completed 3), ("arima", OptOutcome.completed 3)] ∧
      ∀ q ∈ completedOf [("prophet", OptOutcome.failed),
          ("xgboost", OptOutcome.completed 5), ("lightgbm", OptOutcome.completed 3),
          ("arima", OptOutcome.completed 3)], p.2 ≤ q.2 :=
  ⟨by decide, (C4_best_selection _).2.2 (by decide)⟩

/-- **C3** (counterexample to the claim as stated) — an invocation
requesting the two candidates `["prophet", "lightgbm"]` with a budget of
`T = 50` trials and `S = 300` seconds: the claim's `T/N` and `S/N` with
`N = 2` would give each candidate 25 trials and 150 seconds, but
`_optimize_algorithm` divides by `len(AVAILABLE_ALGORITHMS) = 4`, so each
receives 12 trials and 75 seconds. -/
theorem C3_budget_divided_by_registry_size :
    run_allocations (some ["prophet", "lightgbm"]) 50 300 =
      [("prophet", 12, 75), ("lightgbm", 12, 75)] ∧
    (validate_algorithms (some ["prophet", "lightgbm"])).length = 2 ∧
    50 / 2 = 25 ∧ 300 / 2 = 150 ∧ (12 : ℕ) ≠ 25 ∧ (75 : ℕ) ≠ 150 := by
  refine ⟨by decide, by decide, by decide, by decide, by decide, by decide⟩

/-- **C3** (amended) — every candidate of an invocation receives
`T / 4` trials and `S / 4` seconds, where 4 is the size of the fixed
`AVAILABLE_ALGORITHMS` registry, regardless of how many candidates the
invocation actually runs (the two allocations coincide exactly when all
four registered algorithms are candidates). -/
theorem C3_amended_each_gets_registry_share (requested : Option (List String))
    (T S : ℕ) (a : String) (t s : ℕ)
    (h : (a, t, s) ∈ run_allocations requested T S) :
    t = T / availableAlgorithms.length ∧ s = S / availableAlgorithms.length ∧
    availableAlgorithms.length = 4 := by
  unfold run_allocations at h
  obtain ⟨b, _, heq⟩ := List.mem_map.mp h
  simp only [Prod.mk.injEq] at heq
  obtain ⟨-, ht, hs⟩ := heq
  exact ⟨ht.symm, hs.symm, rfl⟩

/-- **C3** witness: the amended claim applied to the counterexample
invocation. -/
theorem C3_amended_witness :
    12 = 50 / availableAlgorithms.length ∧
    75 = 300 / availableAlgorithms.length ∧
    availableAlgorithms.length = 4 :=
  C3_amended_each_gets_registry_share (some ["prophet", "lightgbm"]) 50 300
    "prophet" 12 75 (by decide)

/-! ### NaN handling and interval structure of the LightGBM adapter
(claims C9, C10) -/

lemma ffill_go_length (c : Option ℚ) (l : List (Option ℚ)) :
    (ffill_go c l).length = l.length := by
  induction l generalizing c with
  | nil => rfl
  | cons v vs ih => cases v <;> simp [ffill_go, ih]

lemma ffill_go_all_isSome (c : Option ℚ) (l : List (Option ℚ))
    (hc : c.isSome = true) : ∀ w ∈ ffill_go c l, w.isSome = true := by
  induction l generalizing c with
  | nil => intro w hw; cases hw
  | cons v vs ih =>
    intro w hw
    cases v with
    | none =>
      rcases List.mem_cons.mp hw with rfl | hw'
      · exact hc
      · exact ih c hc w hw'
    | some x =>
      rcases List.mem_cons.mp hw with rfl | hw'
      · rfl
      · exact ih (some x) rfl w hw'

lemma ffill_go_suffix :
    ∀ (l : List (Option ℚ)), (∃ v ∈ l, v.isSome = true) → ∀ c : Option ℚ,
      ∃ p q, ffill_go c l = p ++ q ∧ q ≠ [] ∧ ∀ w ∈ q, w.isSome = true := by
  intro l
  induction l with
  | nil =>
    rintro ⟨v, hv, -⟩
    cases hv
  | cons v vs ih =>
    intro hl c
    cases v with
    | some x =>
      refine ⟨[], some x :: ffill_go (some x) vs, rfl, by simp, ?_⟩
      intro w hw
      rcases List.mem_cons.mp hw with rfl | hw'
      · rfl
      · exact ffill_go_all_isSome (some x) vs rfl w hw'
    | none =>
      have hvs : ∃ v ∈ vs, v.isSome = true := by
        obtain ⟨v, hv, hsome⟩ := hl
        rcases List.mem_cons.mp hv with rfl | hv'
        · simp at hsome
        · exact ⟨v, hv', hsome⟩
      obtain ⟨p, q, heq, hq, hall⟩ := ih hvs c
      exact ⟨c :: p, q, by simp [ffill_go, heq], hq, hall⟩

lemma ffill_go_append_all (t : List (Option ℚ)) :
    ∀ s : List (Option ℚ), s ≠ [] → (∀ w ∈ s, w.isSome = true) →
      ∀ c : Option ℚ, ∀ w ∈ ffill_go c (s ++ t), w.isSome = true := by
  intro s
  induction s with
  | nil => intro hs; cases hs rfl
  | cons v vs ih =>
    intro _ hall c w hw
    have hv : v.isSome = true := hall v (List.mem_cons_self v vs)
    obtain ⟨x, rfl⟩ := Option.isSome_iff_exists.mp hv
    rcases List.mem_cons.mp (by simpa [ffill_go] using hw) with rfl | hw'
    · rfl
    · rcases eq_or_ne vs [] with rfl | hvs
      · exact ffill_go_all_isSome (some x) t rfl w (by simpa using hw')
      · exact ih hvs (fun u hu => hall u (List.mem_cons_of_mem _ hu)) (some x) w hw'

lemma fill_target_all_isSome (y : List (Option ℚ))
    (hy : ∃ v ∈ y, v.isSome = true) : ∀ w ∈ fill_target y, w.isSome = true := by
  obtain ⟨p, q, heq, hq, hall⟩ := ffill_go_suffix y hy none
  intro w hw
  unfold fill_target bfill ffill at hw
  rw [heq] at hw
  rw [List.mem_reverse, List.reverse_append] at hw
  exact ffill_go_append_all p.reverse q.reverse (by simpa using hq)
    (fun u hu => hall u (List.mem_reverse.mp hu)) none w hw

lemma fill_target_length (y : List (Option ℚ)) :
    (fill_target y).length = y.length := by
  simp [fill_target, bfill, ffill, ffill_go_length]

/-- **C10** — `LightGBMForecaster` never drops rows and never propagates
NaN to the library: `fillna(0)` maps every undefined feature entry to `0`
pointwise (row count and row shapes preserved); the target is
forward-filled then backward-filled, keeping its length and — as soon as
one entry is defined — leaving no NaN at all; the concrete instance pins
the fill order (`ffill` before `bfill`: the interior NaN takes the prior
value `2`, not the following `5`); `predict` also yields one prediction
per input row after `fillna(0)`. -/
theorem C10_fit_predict_nan_handling :
    (∀ X : List (List (Option ℚ)), (fillna0 X).length = X.length ∧
      ∀ i : ℕ, (fillna0 X)[i]? = (X[i]?).map fun row => row.map fun v => v.getD 0) ∧
    (∀ y : List (Option ℚ), (fill_target y).length = y.length) ∧
    (∀ y : List (Option ℚ), (∃ v ∈ y, v.isSome = true) →
      ∀ w ∈ fill_target y, w.isSome = true) ∧
    fill_target [none, some 2, none, some 5, none] =
      [some 2, some 2, some 2, some 5, some 5] ∧
    (∀ (st : LGBMFitted) (X : List (List (Option ℚ))),
      (lgbm_predict st X).length = X.length) := by
  refine ⟨?_, fill_target_length, fill_target_all_isSome, rfl, ?_⟩
  · intro X
    refine ⟨by simp [fillna0], ?_⟩
    intro i
    simp [fillna0]
  · intro st X
    simp [lgbm_predict, fillna0]

/-- **C10** witness: the NaN-free-after-fill conjunct applied to a target
with a defined entry. -/
theorem C10_fit_predict_nan_handling_witness :
    (∃ v ∈ [none, some (2 : ℚ)], v.isSome = true) ∧
    ∀ w ∈ fill_target [none, some (2 : ℚ)], w.isSome = true :=
  ⟨⟨some 2, by simp, rfl⟩,
    C10_fit_predict_nan_handling.2.2.1 [none, some 2] ⟨some 2, by simp, rfl⟩⟩

/-- **C9** — the tabular-regression interval fallback: for the LightGBM
adapter (from the source) and the spec-modelled XGBoost adapter alike,
`predict_interval` returns `(point, point - m, point + m)` with
`m = norm_ppf((1 + confidence)/2) * residual_std`, where `residual_std`
is the standard deviation of the fit-time residuals `y_train - y_pred` —
instantiating the oracles at a concrete library model shows it is the
true residual statistic, not the `0.1 * std(target)` heuristic: there it
equals `np_std` of the residuals (`20`), which differs from one tenth of
`np_std` of the target (`2`). -/
theorem C9_interval_margin_is_quantile_times_residual_std :
    (∀ (train : List (List ℚ) → List ℚ → (List ℚ → ℚ)) (np_std : List ℚ → ℚ)
        (norm_ppf : ℚ → ℚ) (X Xp : List (List (Option ℚ)))
        (y : List (Option ℚ)) (c : ℚ),
      (lgbm_fit train np_std X y).residual_std = np_std (fit_residuals train X y) ∧
      (lgbm_predict_interval norm_ppf (lgbm_fit train np_std X y) Xp c).1 =
        lgbm_predict (lgbm_fit train np_std X y) Xp ∧
      ∀ i : ℕ,
        ((lgbm_predict_interval norm_ppf (lgbm_fit train np_std X y) Xp c).2.1)[i]? =
          ((lgbm_predict (lgbm_fit train np_std X y) Xp)[i]?).map
            (fun p => p - norm_ppf ((1 + c) / 2) * np_std (fit_residuals train X y)) ∧
        ((lgbm_predict_interval norm_ppf (lgbm_fit train np_std X y) Xp c).2.2)[i]? =
          ((lgbm_predict (lgbm_fit train np_std X y) Xp)[i]?).map
            (fun p => p + norm_ppf ((1 + c) / 2) * np_std (fit_residuals train X y))) ∧
    (∀ (norm_ppf : ℚ → ℚ) (σ c : ℚ) (point : List ℚ),
      (xgb_predict_interval norm_ppf σ point c).1 = point ∧
      ∀ i : ℕ,
        ((xgb_predict_interval norm_ppf σ point c).2.1)[i]? =
          (point[i]?).map (fun p => p - norm_ppf ((1 + c) / 2) * σ) ∧
        ((xgb_predict_interval norm_ppf σ point c).2.2)[i]? =
          (point[i]?).map (fun p => p + norm_ppf ((1 + c) / 2) * σ)) ∧
    (lgbm_fit (fun _ _ => fun _ => 0) (fun l => l.sum)
        [[some 1], [some 1]] [some 10, some 10]).residual_std = 20 ∧
    (20 : ℚ) ≠ (1 / 10) * 20 := by
  refine ⟨?_, ?_, ?_, by norm_num⟩
  · intro train np_std norm_ppf X Xp y c
    refine ⟨rfl, rfl, ?_⟩
    intro i
    constructor <;> simp [lgbm_predict_interval, lgbm_fit]
  · intro norm_ppf σ c point
    refine ⟨rfl, ?_⟩
    intro i
    constructor <;> simp [xgb_predict_interval]
  · norm_num [lgbm_fit, fit_residuals, fill_target, bfill, ffill, ffill_go, fillna0]

end Forecast
